import Mathlib

set_option maxRecDepth 16384

/-!
Shallow embedding of `src/firmware/app_layer_v1/protocol.c`: the incoming
message decoder (`AppProtocolHandleIncoming`), the dispatcher (`MessageDone`),
the echo/report helpers and the transmit pump (`AppProtocolTasks`).

Bytes are modelled as `Nat` reduced mod 256 wherever the C code stores them
into a `BYTE` object; machine-`int` quantities (`rx_message_remaining`,
`rx_buffer_cursor`, `data_len`) stay plain `Nat` because they never overflow
nor go negative on the paths exercised here.

Definitions whose C source is not under `src/` (protocol.h's structs and
constants, byte_queue.c, digital.c/uart.c report helpers, board constants)
are modelled from the spec and say so in their doc comment.
-/

namespace Proto

/-- Modelled from the spec: board constant `NUM_PINS` (board.h/features.h are
not in src/).  The exact count is irrelevant to the claims beyond the
scenarios' pins (3, 5) being in range. -/
def NUM_PINS : Nat := 49

/-- Modelled from the spec: board constant `NUM_PWMS` (not in src/).  The
sentinel "disable" value 0xF used by SET_PIN_PWM is outside the range. -/
def NUM_PWMS : Nat := 9

/-- Modelled from the spec: board constant `NUM_UARTS` (not in src/). -/
def NUM_UARTS : Nat := 4

/-- `MESSAGE_TYPE_LIMIT` (protocol.h, mirrored by the spec: a closed
enumeration of 16 message types): both arg-size arrays in protocol.c have
exactly this many entries. -/
def MESSAGE_TYPE_LIMIT : Nat := 16

/-- Modelled from the spec: the protocol magic constant `IOIO_MAGIC`
(protocol.h is not in src/), as its four bytes in memory order.  Its concrete
value is irrelevant; only equality with the HARD_RESET magic field matters. -/
def IOIO_MAGIC_BYTES : List Nat := [73, 79, 73, 79]

/-- Reads byte `i` of a memory buffer: `((BYTE*)&rx_msg)[i]`.  `rx_msg` is a
static object, so bytes beyond what the buffer list records (never yet
written) read as 0 (static zero-initialization). -/
def byteAt (buf : List Nat) (i : Nat) : Nat := buf.getD i 0

/-- Reads `n` consecutive bytes starting at offset `i` of a buffer. -/
def readBytes (buf : List Nat) (i n : Nat) : List Nat :=
  (List.range n).map fun k => byteAt buf (i + k)

/-- Writes one byte at offset `i` of a buffer, padding with the zeroes of the
static object if the list does not yet record offset `i`.  The value is
reduced mod 256: the destination is a `BYTE`. -/
def writeByte (buf : List Nat) (i : Nat) (b : Nat) : List Nat :=
  if i < buf.length then buf.set i (b % 256)
  else buf ++ List.replicate (i - buf.length) 0 ++ [b % 256]

/-- Writes consecutive bytes starting at offset `i`: the `memcpy` into
`((BYTE*)&rx_msg) + rx_buffer_cursor` (protocol.c lines 268, 274). -/
def writeBytes : List Nat → Nat → List Nat → List Nat
  | buf, _, [] => buf
  | buf, i, b :: bs => writeBytes (writeByte buf i b) (i + 1) bs

/-!
Argument-struct sizes.  protocol.h (the `*_ARGS` structs) is not in src/, so
the `sizeof` values are modelled from the spec: one byte per field listed in
the spec's per-type table, except the 4-byte magic/firmware words.  What the
source does pin down is *which* struct each table slot references, and that
is mirrored exactly below: a slot of `incoming_arg_size` and a slot of
`outgoing_arg_size` that name the same struct in the source share the same
size constant here.
-/

/-- Modelled from the spec: `sizeof(HARD_RESET_ARGS)` — a 4-byte magic. -/
def HARD_RESET_ARGS_size : Nat := 4

/-- Modelled from the spec: `sizeof(SOFT_RESET_ARGS)` — no fields. -/
def SOFT_RESET_ARGS_size : Nat := 0

/-- Modelled from the spec: `sizeof(SET_PIN_DIGITAL_OUT_ARGS)` — pin, value,
open_drain. -/
def SET_PIN_DIGITAL_OUT_ARGS_size : Nat := 3

/-- Modelled from the spec: `sizeof(SET_DIGITAL_OUT_LEVEL_ARGS)` — pin,
value. -/
def SET_DIGITAL_OUT_LEVEL_ARGS_size : Nat := 2

/-- Modelled from the spec: `sizeof(SET_PIN_DIGITAL_IN_ARGS)` — pin, pull. -/
def SET_PIN_DIGITAL_IN_ARGS_size : Nat := 2

/-- Modelled from the spec: `sizeof(SET_CHANGE_NOTIFY_ARGS)` — pin, cn. -/
def SET_CHANGE_NOTIFY_ARGS_size : Nat := 2

/-- Modelled from the spec: `sizeof(REGISTER_PERIODIC_DIGITAL_SAMPLING_ARGS)`
— the type has no dispatcher case, its size only shapes the stream. -/
def REGISTER_PERIODIC_DIGITAL_SAMPLING_ARGS_size : Nat := 2

/-- Modelled from the spec: `sizeof(RESERVED_ARGS)` — the reserved/unused
slot still has a declared size. -/
def RESERVED_ARGS_size : Nat := 1

/-- Modelled from the spec: `sizeof(SET_PIN_PWM_ARGS)` — pin, pwm_num. -/
def SET_PIN_PWM_ARGS_size : Nat := 2

/-- Modelled from the spec: `sizeof(SET_PWM_DUTY_CYCLE_ARGS)` — pwm_num, a
2-byte dc, fraction. -/
def SET_PWM_DUTY_CYCLE_ARGS_size : Nat := 4

/-- Modelled from the spec: `sizeof(SET_PWM_PERIOD_ARGS)` — pwm_num, a 2-byte
period, scale256. -/
def SET_PWM_PERIOD_ARGS_size : Nat := 4

/-- Modelled from the spec: `sizeof(SET_PIN_ANALOG_IN_ARGS)` — pin. -/
def SET_PIN_ANALOG_IN_ARGS_size : Nat := 1

/-- Modelled from the spec: `sizeof(UART_DATA_ARGS)` fixed part — uart_num
and the one-byte size field; the variable `data` trailer follows. -/
def UART_DATA_ARGS_size : Nat := 2

/-- Modelled from the spec: `sizeof(UART_CONFIG_ARGS)` — uart_num, a 2-byte
rate, speed4x, two_stop_bits, parity. -/
def UART_CONFIG_ARGS_size : Nat := 6

/-- Modelled from the spec: `sizeof(SET_PIN_UART_RX_ARGS)` — pin, uart_num,
enable. -/
def SET_PIN_UART_RX_ARGS_size : Nat := 3

/-- Modelled from the spec: `sizeof(SET_PIN_UART_TX_ARGS)` — pin, uart_num,
enable. -/
def SET_PIN_UART_TX_ARGS_size : Nat := 3

/-- Modelled from the spec: `sizeof(ESTABLISH_CONNECTION_ARGS)` — 4-byte
magic, hardware version byte, bootloader version byte, 4-byte firmware id. -/
def ESTABLISH_CONNECTION_ARGS_size : Nat := 10

/-- Modelled from the spec: `sizeof(REPORT_DIGITAL_IN_STATUS_ARGS)` — pin,
level. -/
def REPORT_DIGITAL_IN_STATUS_ARGS_size : Nat := 2

/-- Modelled from the spec: `sizeof(REPORT_ANALOG_IN_FORMAT_ARGS)`. -/
def REPORT_ANALOG_IN_FORMAT_ARGS_size : Nat := 2

/-- Modelled from the spec: `sizeof(REPORT_ANALOG_IN_STATUS_ARGS)`. -/
def REPORT_ANALOG_IN_STATUS_ARGS_size : Nat := 2

/-- Modelled from the spec: `sizeof(UART_REPORT_TX_STATUS)` — uart_num and a
2-byte count. -/
def UART_REPORT_TX_STATUS_size : Nat := 3

/-- `incoming_arg_size` (protocol.c lines 19-38): the 16-entry table of fixed
incoming argument sizes, indexed by the message type.  The C array has
exactly `MESSAGE_TYPE_LIMIT` entries; the `_ => 0` arm has no counterpart in
the source (indexing beyond 15 is an out-of-bounds read there) and is only
ever reached behind the `oob` flag set in `transition`. -/
def incoming_arg_size : Nat → Nat
  | 0 => HARD_RESET_ARGS_size
  | 1 => SOFT_RESET_ARGS_size
  | 2 => SET_PIN_DIGITAL_OUT_ARGS_size
  | 3 => SET_DIGITAL_OUT_LEVEL_ARGS_size
  | 4 => SET_PIN_DIGITAL_IN_ARGS_size
  | 5 => SET_CHANGE_NOTIFY_ARGS_size
  | 6 => REGISTER_PERIODIC_DIGITAL_SAMPLING_ARGS_size
  | 7 => RESERVED_ARGS_size
  | 8 => SET_PIN_PWM_ARGS_size
  | 9 => SET_PWM_DUTY_CYCLE_ARGS_size
  | 10 => SET_PWM_PERIOD_ARGS_size
  | 11 => SET_PIN_ANALOG_IN_ARGS_size
  | 12 => UART_DATA_ARGS_size
  | 13 => UART_CONFIG_ARGS_size
  | 14 => SET_PIN_UART_RX_ARGS_size
  | 15 => SET_PIN_UART_TX_ARGS_size
  | _ => 0

/-- `outgoing_arg_size` (protocol.c lines 40-59): the 16-entry table of fixed
outgoing argument sizes.  Slots that name the same struct as the incoming
table in the source use the same size constant here. -/
def outgoing_arg_size : Nat → Nat
  | 0 => ESTABLISH_CONNECTION_ARGS_size
  | 1 => SOFT_RESET_ARGS_size
  | 2 => SET_PIN_DIGITAL_OUT_ARGS_size
  | 3 => REPORT_DIGITAL_IN_STATUS_ARGS_size
  | 4 => SET_PIN_DIGITAL_IN_ARGS_size
  | 5 => SET_CHANGE_NOTIFY_ARGS_size
  | 6 => REGISTER_PERIODIC_DIGITAL_SAMPLING_ARGS_size
  | 7 => RESERVED_ARGS_size
  | 8 => REPORT_ANALOG_IN_FORMAT_ARGS_size
  | 9 => REPORT_ANALOG_IN_STATUS_ARGS_size
  | 10 => UART_REPORT_TX_STATUS_size
  | 11 => SET_PIN_ANALOG_IN_ARGS_size
  | 12 => UART_DATA_ARGS_size
  | 13 => UART_CONFIG_ARGS_size
  | 14 => SET_PIN_UART_RX_ARGS_size
  | 15 => SET_PIN_UART_TX_ARGS_size
  | _ => 0

/-- `OutgoingMessageLength` (protocol.c lines 75-77):
`1 + outgoing_arg_size[msg->type]`, with the message viewed as its bytes in
memory (byte 0 is the type). -/
def OutgoingMessageLength (buf : List Nat) : Nat :=
  1 + outgoing_arg_size (byteAt buf 0)

/-- `IncomingVarArgSize` (protocol.c lines 79-88): `size + 1` for UART_DATA
(type 12), 0 for every other type.  The C function returns `BYTE`, so the
value is truncated mod 256: for `size = 255` it returns 0, not 256. -/
def IncomingVarArgSize (buf : List Nat) : Nat :=
  if byteAt buf 0 = 12 then (byteAt buf 2 + 1) % 256 else 0

/-- Hardware-capability calls made by the dispatcher (protocol.c lines
146-260).  The collaborators themselves (reset, digital, pwm, adc, uart
drivers) are external to the core; the model records each call and its
arguments as an event. -/
inductive Event where
  | HardReset : Event
  | SoftReset : Event
  | SetPinDigitalOut (pin value openDrain : Nat) : Event
  | SetDigitalOutLevel (pin value : Nat) : Event
  | SetPinDigitalIn (pin pull : Nat) : Event
  | SetChangeNotify (pin cn : Nat) : Event
  | SetPinPwm (pin pwmNum : Nat) : Event
  | SetPwmDutyCycle (pwmNum dc fraction : Nat) : Event
  | SetPwmPeriod (pwmNum period scale256 : Nat) : Event
  | SetPinAnalogIn (pin : Nat) : Event
  | UARTTransmit (uartNum : Nat) (data : List Nat) : Event
  | UARTConfig (uartNum rate speed4x twoStopBits parity : Nat) : Event
  | SetPinUartRx (pin uartNum enable : Nat) : Event
  | SetPinUartTx (pin uartNum enable : Nat) : Event
deriving DecidableEq, Repr

/-- Outcome of `MessageDone` (protocol.c lines 146-260): `fail` is the
`return FALSE` of a failed `CHECK` or of the `default` arm; `ok` carries the
hardware calls made and the bytes enqueued on `tx_queue` (echo and reports,
in order); `reset` is the HARD_RESET success path, whose `HardReset()` call
never returns. -/
inductive DispatchResult where
  | fail : DispatchResult
  | ok (events : List Event) (txPush : List Nat) : DispatchResult
  | reset (events : List Event) : DispatchResult
deriving DecidableEq, Repr

/-- `Echo` (protocol.c lines 142-144): re-sends `rx_msg` reinterpreted as an
outgoing message, i.e. pushes `OutgoingMessageLength` bytes read from the
start of the `rx_msg` buffer onto `tx_queue`
(via `AppProtocolSendMessage`). -/
def Echo (buf : List Nat) : List Nat :=
  readBytes buf 0 (OutgoingMessageLength buf)

/-- Modelled from the spec: `ReportDigitalInStatus` (digital.c is not in
src/) enqueues a REPORT_DIGITAL_IN_STATUS outbound message (type 3: pin,
level) for the given pin.  The level byte is the current hardware input
level, outside this model; it is rendered as 0. -/
def ReportDigitalInStatus (pin : Nat) : List Nat := [3, pin % 256, 0]

/-- Modelled from the spec: `UARTReportTxStatus` (uart.c is not in src/)
enqueues a UART_REPORT_TX_STATUS outbound message (type 10: uart_num, 2-byte
count) for the given UART.  The count is hardware state, rendered as 0. -/
def UARTReportTxStatus (uartNum : Nat) : List Nat := [10, uartNum % 256, 0, 0]

/-- The field-range validations (`CHECK(...)` macros) of each `MessageDone`
case (protocol.c lines 146-260), as one boolean per message.  Types 6, 7 and
anything at or beyond `MESSAGE_TYPE_LIMIT` have no `case` label and land in
the switch's `default`, which fails. -/
def dispatchValid (buf : List Nat) : Bool :=
  let t := byteAt buf 0
  if t = 0 then decide (readBytes buf 1 4 = IOIO_MAGIC_BYTES)
  else if t = 1 then true
  else if t = 2 then decide (byteAt buf 1 < NUM_PINS)
  else if t = 3 then decide (byteAt buf 1 < NUM_PINS)
  else if t = 4 then decide (byteAt buf 1 < NUM_PINS ∧ byteAt buf 2 < 3)
  else if t = 5 then decide (byteAt buf 1 < NUM_PINS)
  else if t = 8 then
    decide (byteAt buf 1 < NUM_PINS ∧ (byteAt buf 2 < NUM_PWMS ∨ byteAt buf 2 = 15))
  else if t = 9 then decide (byteAt buf 1 < NUM_PWMS)
  else if t = 10 then decide (byteAt buf 1 < NUM_PWMS)
  else if t = 11 then decide (byteAt buf 1 < NUM_PINS)
  else if t = 12 then decide (byteAt buf 1 < NUM_UARTS)
  else if t = 13 then decide (byteAt buf 1 < NUM_UARTS ∧ byteAt buf 6 < 3)
  else if t = 14 then decide (byteAt buf 1 < NUM_PINS ∧ byteAt buf 2 < NUM_UARTS)
  else if t = 15 then decide (byteAt buf 1 < NUM_PINS ∧ byteAt buf 2 < NUM_UARTS)
  else false

/-- The extra outbound report a successful dispatch enqueues after the echo:
the digital-in-status report of SET_CHANGE_NOTIFY when enabling (protocol.c
lines 184-186) and the TX-status report of UART_CONFIG (line 232); empty for
every other type. -/
def extraReport (buf : List Nat) : List Nat :=
  if byteAt buf 0 = 5 then
    if byteAt buf 2 ≠ 0 then ReportDigitalInStatus (byteAt buf 1) else []
  else if byteAt buf 0 = 13 then UARTReportTxStatus (byteAt buf 1)
  else []

/-- `MessageDone` (protocol.c lines 146-260): validates the completed message
in `rx_msg` and performs its action.  `buf` is the `rx_msg` buffer; field
offsets follow the modelled struct layouts (one byte per field, magic 4
bytes, dc/period/rate 2 bytes).  Each case runs its `CHECK`s first — a
failing `CHECK` returns FALSE before any hardware call or echo — then the
hardware call, then `Echo()` if the type is echoed, then the extra report.
Types 6, 7 and ≥ 16 hit the `default` arm and fail. -/
def MessageDone (buf : List Nat) : DispatchResult :=
  let t := byteAt buf 0
  if t = 0 then
    if readBytes buf 1 4 = IOIO_MAGIC_BYTES then .reset [.HardReset] else .fail
  else if t = 1 then .ok [.SoftReset] (Echo buf)
  else if t = 2 then
    if byteAt buf 1 < NUM_PINS then
      .ok [.SetPinDigitalOut (byteAt buf 1) (byteAt buf 2) (byteAt buf 3)] (Echo buf)
    else .fail
  else if t = 3 then
    if byteAt buf 1 < NUM_PINS then
      .ok [.SetDigitalOutLevel (byteAt buf 1) (byteAt buf 2)] []
    else .fail
  else if t = 4 then
    if byteAt buf 1 < NUM_PINS then
      if byteAt buf 2 < 3 then
        .ok [.SetPinDigitalIn (byteAt buf 1) (byteAt buf 2)] (Echo buf)
      else .fail
    else .fail
  else if t = 5 then
    if byteAt buf 1 < NUM_PINS then
      .ok [.SetChangeNotify (byteAt buf 1) (byteAt buf 2)]
        (Echo buf ++ (if byteAt buf 2 ≠ 0 then ReportDigitalInStatus (byteAt buf 1) else []))
    else .fail
  else if t = 8 then
    if byteAt buf 1 < NUM_PINS then
      if byteAt buf 2 < NUM_PWMS ∨ byteAt buf 2 = 15 then
        .ok [.SetPinPwm (byteAt buf 1) (byteAt buf 2)] []
      else .fail
    else .fail
  else if t = 9 then
    if byteAt buf 1 < NUM_PWMS then
      .ok [.SetPwmDutyCycle (byteAt buf 1) (byteAt buf 2 + 256 * byteAt buf 3) (byteAt buf 4)] []
    else .fail
  else if t = 10 then
    if byteAt buf 1 < NUM_PWMS then
      .ok [.SetPwmPeriod (byteAt buf 1) (byteAt buf 2 + 256 * byteAt buf 3) (byteAt buf 4)] []
    else .fail
  else if t = 11 then
    if byteAt buf 1 < NUM_PINS then
      .ok [.SetPinAnalogIn (byteAt buf 1)] (Echo buf)
    else .fail
  else if t = 12 then
    if byteAt buf 1 < NUM_UARTS then
      .ok [.UARTTransmit (byteAt buf 1) (readBytes buf 3 (byteAt buf 2 + 1))] []
    else .fail
  else if t = 13 then
    if byteAt buf 1 < NUM_UARTS then
      if byteAt buf 6 < 3 then
        .ok [.UARTConfig (byteAt buf 1) (byteAt buf 2 + 256 * byteAt buf 3)
              (byteAt buf 4) (byteAt buf 5) (byteAt buf 6)]
          (Echo buf ++ UARTReportTxStatus (byteAt buf 1))
      else .fail
    else .fail
  else if t = 14 then
    if byteAt buf 1 < NUM_PINS then
      if byteAt buf 2 < NUM_UARTS then
        .ok [.SetPinUartRx (byteAt buf 1) (byteAt buf 2) (byteAt buf 3)] (Echo buf)
      else .fail
    else .fail
  else if t = 15 then
    if byteAt buf 1 < NUM_PINS then
      if byteAt buf 2 < NUM_UARTS then
        .ok [.SetPinUartTx (byteAt buf 1) (byteAt buf 2) (byteAt buf 3)] (Echo buf)
      else .fail
    else .fail
  else .fail

/-- `RX_MESSAGE_STATE` (protocol.c lines 64-68). -/
inductive RxMessageState where
  | WAIT_TYPE : RxMessageState
  | WAIT_ARGS : RxMessageState
  | WAIT_VAR_ARGS : RxMessageState
deriving DecidableEq, Repr

/-- The protocol engine's per-device state: the decoder cursor state and
`rx_msg` buffer (protocol.c lines 70-73), the outgoing queue and transmit
bookkeeping (lines 61-62), plus the model's observables — the hardware calls
made (`events`), the `rx_msg` contents at each `MessageDone` invocation
(`dispatched`), the writes handed to `ADBWrite` (`writes`) — and two model
flags: `halted` (a successful HARD_RESET's non-returning `HardReset()`
happened; nothing further executes) and `oob` (the decoder indexed
`incoming_arg_size` at or beyond `MESSAGE_TYPE_LIMIT`, an out-of-bounds read
in the C array). -/
structure St where
  rxBuf : List Nat
  rxCursor : Nat
  rxRemaining : Nat
  rxState : RxMessageState
  txQueue : List Nat
  bytesTransmitted : Nat
  events : List Event
  dispatched : List (List Nat)
  writes : List (List Nat)
  halted : Bool
  oob : Bool
deriving DecidableEq, Repr

/-- The `case WAIT_VAR_ARGS` arm (protocol.c lines 295-300): reset the cursor
state to `(WAIT_TYPE, 1, 0)`, then invoke `MessageDone()`; `FALSE` from it
makes `AppProtocolHandleIncoming` return FALSE.  The completed message — the
first `rx_buffer_cursor` bytes of `rx_msg` — is recorded in `dispatched`. -/
def transitionVar (st : St) : St × Bool :=
  let st1 : St :=
    { st with rxState := .WAIT_TYPE, rxRemaining := 1, rxCursor := 0,
              dispatched := st.dispatched ++ [st.rxBuf.take st.rxCursor] }
  match MessageDone st.rxBuf with
  | .fail => (st1, false)
  | .ok evs push =>
      ({ st1 with events := st1.events ++ evs, txQueue := st1.txQueue ++ push }, true)
  | .reset evs =>
      ({ st1 with events := st1.events ++ evs, halted := true }, true)

/-- The `case WAIT_ARGS` arm (protocol.c lines 289-293): enter WAIT_VAR_ARGS
with `IncomingVarArgSize(&rx_msg)` bytes to go; fall through to the
WAIT_VAR_ARGS arm when that is zero. -/
def transitionArgs (st : St) : St × Bool :=
  let st1 : St := { st with rxState := .WAIT_VAR_ARGS, rxRemaining := IncomingVarArgSize st.rxBuf }
  if st1.rxRemaining = 0 then transitionVar st1 else (st1, true)

/-- The state-change switch of `AppProtocolHandleIncoming` (protocol.c lines
281-301), entered when `rx_message_remaining` reached 0.  The WAIT_TYPE arm
looks up `incoming_arg_size[rx_msg.type]`: the C array has only
`MESSAGE_TYPE_LIMIT` entries, so a type byte at or beyond that limit makes
the lookup an out-of-bounds read — there is no range check in the source.
The model records that event in the `oob` flag (and continues with arg size
0; past that point it no longer tracks the C, whose read value is
unspecified). -/
def transition (st : St) : St × Bool :=
  match st.rxState with
  | .WAIT_TYPE =>
      let t := byteAt st.rxBuf 0
      let st1 : St :=
        { st with rxState := .WAIT_ARGS,
                  rxRemaining := if t < MESSAGE_TYPE_LIMIT then incoming_arg_size t else 0,
                  oob := st.oob || decide (MESSAGE_TYPE_LIMIT ≤ t) }
      if st1.rxRemaining = 0 then transitionArgs st1 else (st1, true)
  | .WAIT_ARGS => transitionArgs st
  | .WAIT_VAR_ARGS => transitionVar st

/-- One byte of the copy step of `AppProtocolHandleIncoming` (protocol.c
lines 266-278): store the byte at `rx_buffer_cursor`, advance the cursor,
decrement `rx_message_remaining`. -/
def copy1 (st : St) (b : Nat) : St :=
  { st with rxBuf := writeByte st.rxBuf st.rxCursor b,
            rxCursor := st.rxCursor + 1,
            rxRemaining := st.rxRemaining - 1 }

/-- Byte-granular reading of the `while (data_len > 0)` loop of
`AppProtocolHandleIncoming` (protocol.c lines 265-303): the bulk `memcpy` of
`min(data_len, rx_message_remaining)` bytes is taken one byte at a time —
the state-change switch only runs when `rx_message_remaining` reaches 0, so
the two granularities coincide (proved below against `handleLoopChunk`, the
chunk-granular transcription).  A failed dispatch returns FALSE at once,
abandoning the rest of the chunk; a successful HARD_RESET (`halted`) never
returns, so the rest of the chunk is likewise never consumed. -/
def handleLoop : St → List Nat → St × Bool
  | st, [] => (st, true)
  | st, b :: rest =>
      let st1 := copy1 st b
      if st1.rxRemaining = 0 then
        let r := transition st1
        if r.2 then
          if r.1.halted then (r.1, true) else handleLoop r.1 rest
        else (r.1, false)
      else handleLoop st1 rest

/-- The `while (data_len > 0)` loop of `AppProtocolHandleIncoming`
(protocol.c lines 265-303) transcribed at its own chunk granularity: each
iteration copies `min(data_len, rx_message_remaining)` bytes into `rx_msg`
at the cursor and runs the state-change switch when `rx_message_remaining`
reached 0.  The `fuel` argument only bounds the iteration count for Lean's
termination checker; `data.length + 1` iterations always suffice because
every reachable state has `rx_message_remaining ≥ 1`, making each iteration
consume at least one byte (the fuel-exhausted arm is unreachable then). -/
def handleLoopChunk : Nat → St → List Nat → St × Bool
  | 0, st, _ => (st, true)
  | fuel + 1, st, data =>
      if data.isEmpty then (st, true)
      else
        let n := min data.length st.rxRemaining
        let st1 : St :=
          { st with rxBuf := writeBytes st.rxBuf st.rxCursor (data.take n),
                    rxCursor := st.rxCursor + n,
                    rxRemaining := st.rxRemaining - n }
        if st1.rxRemaining = 0 then
          let r := transition st1
          if r.2 then
            if r.1.halted then (r.1, true)
            else handleLoopChunk fuel r.1 (data.drop n)
          else (r.1, false)
        else (st1, true)

/-- `AppProtocolHandleIncoming` (protocol.c lines 262-305): feed one chunk of
the byte stream to the decoder.  Returns the new state and the C function's
BOOL result (FALSE exactly when a completed message's dispatch failed).  A
`halted` state (successful HARD_RESET) never runs again in the C — the
device rebooted — so the model ignores further input there. -/
def AppProtocolHandleIncoming (st : St) (data : List Nat) : St × Bool :=
  if st.halted then (st, true) else handleLoopChunk (data.length + 1) st data

/-- The ESTABLISH_CONNECTION outbound message enqueued by `AppProtocolInit`
(protocol.c lines 97-104): type 0, `IOIO_MAGIC`, hardware version 0,
bootloader version 1, `FIRMWARE_ID` = 1 — multi-byte fields in little-endian
byte order per the modelled layout. -/
def establishConnectionBytes : List Nat :=
  [0] ++ IOIO_MAGIC_BYTES ++ [0] ++ [1] ++ [1, 0, 0, 0]

/-- `AppProtocolInit` (protocol.c lines 90-105): reset the transmit
bookkeeping and decoder cursor state to `(WAIT_TYPE, 1, 0)`, clear
`tx_queue`, and enqueue the connection-establishment message.  The static
`rx_msg` buffer itself is not cleared by the C code; at program start it is
zero-initialized, which the empty buffer list also denotes. -/
def AppProtocolInit : St :=
  { rxBuf := [], rxCursor := 0, rxRemaining := 1, rxState := .WAIT_TYPE,
    txQueue := establishConnectionBytes, bytesTransmitted := 0,
    events := [], dispatched := [], writes := [], halted := false, oob := false }

/-- `AppProtocolTasks` (protocol.c lines 122-140), the transmit pump.
`channelReady` is `ADBChannelReady(h)`.  byte_queue.c is not in src/; its
operations are modelled from the spec — `ByteQueuePull n` drops `n` bytes
from the front, `ByteQueuePeek` yields the contiguous head span without
removing it, modelled as the entire queue contents.  `UARTTasks()` is
external housekeeping (uart.c, not in src/) and acts on this state only as
an independent producer; it is not modelled here.  When the channel is
ready: first pull the `bytes_transmitted` bytes of the previously issued
write (if any), then peek; if non-empty, hand the span to `ADBWrite`
(recorded in `writes`) and remember its length in `bytes_transmitted`. -/
def AppProtocolTasks (channelReady : Bool) (st : St) : St :=
  if channelReady then
    let q1 := if st.bytesTransmitted ≠ 0 then st.txQueue.drop st.bytesTransmitted else st.txQueue
    if 0 < q1.length then
      { st with txQueue := q1, bytesTransmitted := q1.length, writes := st.writes ++ [q1] }
    else
      { st with txQueue := q1, bytesTransmitted := 0 }
  else st

/-- Folding `AppProtocolHandleIncoming` over a list of chunks: the caller
feeding the stream piecewise, with the per-device state carried between
calls.  The C caller keeps no extra state, and `AppProtocolHandleIncoming`
latches no failure flag, so each call starts from wherever the previous one
left off regardless of the previous BOOL result. -/
def feedChunks (st : St) (chunks : List (List Nat)) : St :=
  chunks.foldl (fun s c => (AppProtocolHandleIncoming s c).1) st

end Proto

namespace Proto

/-! Buffer lemmas: reading back what the copy loop wrote. -/

theorem byteAt_writeByte_self (buf : List Nat) (i b : Nat) :
    byteAt (writeByte buf i b) i = b % 256 := by
  unfold byteAt writeByte
  by_cases h : i < buf.length
  · simp [h, List.getD_eq_getElem?_getD, List.getElem?_set_self',
      List.getElem?_eq_getElem h]
  · have hle : buf.length ≤ i := le_of_not_lt h
    simp only [h, if_false, List.getD_eq_getElem?_getD]
    have h2 : (buf ++ List.replicate (i - buf.length) 0).length ≤ i := by
      simp
      omega
    rw [List.getElem?_append_right h2]
    have h0 : i - (buf ++ List.replicate (i - buf.length) 0).length = 0 := by
      simp
      omega
    rw [h0]
    simp

theorem byteAt_writeByte_lt (buf : List Nat) {i j : Nat} (b : Nat) (hj : j < i) :
    byteAt (writeByte buf i b) j = byteAt buf j := by
  unfold byteAt writeByte
  by_cases h : i < buf.length
  · simp [h, List.getD_eq_getElem?_getD, List.getElem?_set_ne (ne_of_gt hj)]
  · by_cases hjl : j < buf.length
    · simp [h, List.getD_eq_getElem?_getD, List.getElem?_append_left hjl]
    · have hjle : buf.length ≤ j := le_of_not_lt hjl
      simp only [h, if_false, List.getD_eq_getElem?_getD]
      rw [List.getElem?_append_left
        (show j < (buf ++ List.replicate (i - buf.length) 0).length by simp; omega)]
      rw [List.getElem?_append_right hjle]
      have hcond : j - buf.length < i - buf.length := by omega
      simp [List.getElem?_replicate, hcond, List.getElem?_eq_none hjle]

theorem writeBytes_concat (bs : List Nat) : ∀ (buf : List Nat) (i b : Nat),
    writeBytes buf i (bs ++ [b]) = writeByte (writeBytes buf i bs) (i + bs.length) b := by
  induction bs with
  | nil => intro buf i b; simp [writeBytes]
  | cons x xs ih =>
      intro buf i b
      show writeBytes (writeByte buf i x) (i + 1) (xs ++ [b]) =
        writeByte (writeBytes (writeByte buf i x) (i + 1) xs) (i + (x :: xs).length) b
      rw [ih]
      congr 1
      simp
      omega

theorem byteAt_writeBytes_lt (bs : List Nat) : ∀ (buf : List Nat) (i j : Nat), j < i →
    byteAt (writeBytes buf i bs) j = byteAt buf j := by
  induction bs with
  | nil => intros; rfl
  | cons x xs ih =>
      intro buf i j hj
      show byteAt (writeBytes (writeByte buf i x) (i + 1) xs) j = byteAt buf j
      rw [ih _ _ _ (Nat.lt_succ_of_lt hj)]
      exact byteAt_writeByte_lt buf x hj

theorem byteAt_writeBytes_get (bs : List Nat) : ∀ (buf : List Nat) (i k : Nat),
    k < bs.length → byteAt (writeBytes buf i bs) (i + k) = bs.getD k 0 % 256 := by
  induction bs with
  | nil => intro _ _ k hk; simp at hk
  | cons x xs ih =>
      intro buf i k hk
      cases k with
      | zero =>
          show byteAt (writeBytes (writeByte buf i x) (i + 1) xs) (i + 0) = _
          rw [Nat.add_zero, byteAt_writeBytes_lt xs _ _ _ (by omega)]
          simpa using byteAt_writeByte_self buf i x
      | succ m =>
          show byteAt (writeBytes (writeByte buf i x) (i + 1) xs) (i + (m + 1)) = _
          have hk2 : m < xs.length := by
            simp at hk
            omega
          have harr : i + (m + 1) = (i + 1) + m := by omega
          rw [harr, ih _ _ _ hk2]
          simp [List.getD_cons_succ]

theorem readBytes_length (buf : List Nat) (i n : Nat) :
    (readBytes buf i n).length = n := by simp [readBytes]

theorem readBytes_eq_take (buf : List Nat) (n : Nat) (h : n ≤ buf.length) :
    readBytes buf 0 n = buf.take n := by
  apply List.ext_getElem
  · simp [readBytes]
    omega
  · intro k h1 h2
    have hk : k < n := by simpa [readBytes] using h1
    have hkb : k < buf.length := lt_of_lt_of_le hk h
    simp only [readBytes, List.getElem_map, List.getElem_range, List.getElem_take]
    simp [byteAt, List.getD_eq_getElem?_getD, List.getElem?_eq_getElem hkb]

/-! Shape lemmas for the state-change switch. -/

theorem transitionVar_fail (st : St) (h : (transitionVar st).2 = false) :
    transitionVar st =
      ({ st with rxState := .WAIT_TYPE, rxRemaining := 1, rxCursor := 0,
                 dispatched := st.dispatched ++ [st.rxBuf.take st.rxCursor] }, false) := by
  rcases hmd : MessageDone st.rxBuf with _ | ⟨evs, push⟩ | evs <;>
    simp [transitionVar, hmd] at h ⊢

theorem transitionVar_remaining (st : St) : (transitionVar st).1.rxRemaining = 1 := by
  rcases hmd : MessageDone st.rxBuf with _ | ⟨evs, push⟩ | evs <;> simp [transitionVar, hmd]

theorem transitionArgs_pos (st : St) : 1 ≤ (transitionArgs st).1.rxRemaining := by
  unfold transitionArgs
  by_cases h : IncomingVarArgSize st.rxBuf = 0
  · simpa [h] using Nat.le_of_eq (transitionVar_remaining _).symm
  · simp [h]
    omega

theorem transition_pos (st : St) : 1 ≤ (transition st).1.rxRemaining := by
  unfold transition
  rcases hs : st.rxState
  · by_cases h : (if byteAt st.rxBuf 0 < MESSAGE_TYPE_LIMIT then
        incoming_arg_size (byteAt st.rxBuf 0) else 0) = 0
    · simpa [h] using transitionArgs_pos _
    · simp [h]
      omega
  · exact transitionArgs_pos st
  · simpa using Nat.le_of_eq (transitionVar_remaining st).symm

end Proto

namespace Proto

/-! Unfolding steps for the byte-granular loop. -/

theorem handleLoop_cons_copy (st : St) (b : Nat) (l : List Nat)
    (h : ¬(copy1 st b).rxRemaining = 0) :
    handleLoop st (b :: l) = handleLoop (copy1 st b) l := by
  simp [handleLoop, h]

theorem handleLoop_cons_trans (st : St) (b : Nat) (l : List Nat)
    (h : (copy1 st b).rxRemaining = 0) :
    handleLoop st (b :: l) =
      if (transition (copy1 st b)).2 then
        (if (transition (copy1 st b)).1.halted then ((transition (copy1 st b)).1, true)
         else handleLoop (transition (copy1 st b)).1 l)
      else ((transition (copy1 st b)).1, false) := by
  simp [handleLoop, h]

/-- Feeding fewer bytes than the decoder still expects only copies them:
no state transition runs. -/
theorem handleLoop_copy (bs : List Nat) : ∀ (st : St) (rest : List Nat),
    bs.length < st.rxRemaining →
    handleLoop st (bs ++ rest) =
      handleLoop { st with rxBuf := writeBytes st.rxBuf st.rxCursor bs,
                           rxCursor := st.rxCursor + bs.length,
                           rxRemaining := st.rxRemaining - bs.length } rest := by
  induction bs with
  | nil =>
      intro st rest h
      rfl
  | cons b bs ih =>
      intro st rest h
      have hlen : bs.length + 1 < st.rxRemaining := by simpa using h
      have hne : ¬(copy1 st b).rxRemaining = 0 := by
        simp [copy1]
        omega
      rw [show (b :: bs) ++ rest = b :: (bs ++ rest) from rfl]
      rw [handleLoop_cons_copy st b (bs ++ rest) hne]
      rw [ih (copy1 st b) rest (by simp [copy1]; omega)]
      congr 1
      cases st
      simp [copy1, writeBytes]
      omega

/-- Feeding exactly the bytes the decoder still expects copies them and runs
the state-change switch once. -/
theorem handleLoop_consume (bs : List Nat) : ∀ (st : St) (rest : List Nat),
    bs.length = st.rxRemaining → 1 ≤ st.rxRemaining →
    handleLoop st (bs ++ rest) =
      if (transition { st with rxBuf := writeBytes st.rxBuf st.rxCursor bs,
                               rxCursor := st.rxCursor + bs.length,
                               rxRemaining := 0 }).2 then
        (if (transition { st with rxBuf := writeBytes st.rxBuf st.rxCursor bs,
                                  rxCursor := st.rxCursor + bs.length,
                                  rxRemaining := 0 }).1.halted then
          ((transition { st with rxBuf := writeBytes st.rxBuf st.rxCursor bs,
                                 rxCursor := st.rxCursor + bs.length,
                                 rxRemaining := 0 }).1, true)
         else handleLoop (transition { st with rxBuf := writeBytes st.rxBuf st.rxCursor bs,
                                               rxCursor := st.rxCursor + bs.length,
                                               rxRemaining := 0 }).1 rest)
      else ((transition { st with rxBuf := writeBytes st.rxBuf st.rxCursor bs,
                                  rxCursor := st.rxCursor + bs.length,
                                  rxRemaining := 0 }).1, false) := by
  induction bs with
  | nil =>
      intro st rest hlen hrem
      simp at hlen
      omega
  | cons b bs ih =>
      intro st rest hlen hrem
      have hlen2 : bs.length + 1 = st.rxRemaining := by simpa using hlen
      rw [show (b :: bs) ++ rest = b :: (bs ++ rest) from rfl]
      cases bs with
      | nil =>
          have hr1 : st.rxRemaining = 1 := by simpa using hlen2.symm
          have hz : (copy1 st b).rxRemaining = 0 := by
            simp [copy1, hr1]
          rw [handleLoop_cons_trans st b ([] ++ rest) hz]
          have hrec : copy1 st b =
              { st with rxBuf := writeBytes st.rxBuf st.rxCursor [b],
                        rxCursor := st.rxCursor + [b].length,
                        rxRemaining := 0 } := by
            simp [copy1, writeBytes, hr1]
          rw [hrec]
          rfl
      | cons c cs =>
          have hr2 : cs.length + 2 = st.rxRemaining := by
            simp at hlen2
            omega
          have hne : ¬(copy1 st b).rxRemaining = 0 := by
            simp [copy1]
            omega
          rw [handleLoop_cons_copy st b ((c :: cs) ++ rest) hne]
          rw [ih (copy1 st b) rest (by simp [copy1]; omega) (by simp [copy1]; omega)]
          have hrec : ({ copy1 st b with
                rxBuf := writeBytes (copy1 st b).rxBuf (copy1 st b).rxCursor (c :: cs),
                rxCursor := (copy1 st b).rxCursor + (c :: cs).length,
                rxRemaining := 0 } : St) =
              { st with rxBuf := writeBytes st.rxBuf st.rxCursor (b :: c :: cs),
                        rxCursor := st.rxCursor + (b :: c :: cs).length,
                        rxRemaining := 0 } := by
            simp [copy1, writeBytes]
            omega
          rw [hrec]

theorem handleLoop_remaining (data : List Nat) : ∀ st : St, 1 ≤ st.rxRemaining →
    1 ≤ (handleLoop st data).1.rxRemaining := by
  induction data with
  | nil => intro st h; exact h
  | cons b rest ih =>
      intro st h
      by_cases h0 : (copy1 st b).rxRemaining = 0
      · rw [handleLoop_cons_trans st b rest h0]
        by_cases ht : (transition (copy1 st b)).2
        · by_cases hh : (transition (copy1 st b)).1.halted
          · simpa [ht, hh] using transition_pos (copy1 st b)
          · simpa [ht, hh] using ih _ (transition_pos (copy1 st b))
        · simpa [ht] using transition_pos (copy1 st b)
      · rw [handleLoop_cons_copy st b rest h0]
        exact ih _ (by omega)

end Proto

namespace Proto

/-- The chunk-granular transcription of the receive loop agrees with the
byte-granular one whenever the decoder expects at least one byte (true of
every reachable state), with any fuel exceeding the chunk length. -/
theorem handleLoopChunk_eq : ∀ (fuel : Nat) (data : List Nat) (st : St),
    data.length < fuel → 1 ≤ st.rxRemaining →
    handleLoopChunk fuel st data = handleLoop st data := by
  intro fuel
  induction fuel with
  | zero =>
      intro data st hlen hrem
      omega
  | succ fuel ih =>
      intro data st hlen hrem
      by_cases hd : data = []
      · subst hd
        rfl
      · have hne : data.isEmpty = false := by simpa [List.isEmpty_iff] using hd
        rw [handleLoopChunk]
        simp only [hne, Bool.false_eq_true, if_false]
        by_cases hB : st.rxRemaining ≤ data.length
        · have hn : min data.length st.rxRemaining = st.rxRemaining := Nat.min_eq_right hB
          have htl : (data.take st.rxRemaining).length = st.rxRemaining := by
            simp [List.length_take]
            omega
          simp only [hn, Nat.sub_self, reduceIte]
          have hsplit : data.take st.rxRemaining ++ data.drop st.rxRemaining = data :=
            List.take_append_drop _ _
          conv_rhs => rw [← hsplit]
          rw [handleLoop_consume (data.take st.rxRemaining) st (data.drop st.rxRemaining)
            htl hrem]
          rw [htl]
          split_ifs with h1 h2
          · rfl
          · exact ih (data.drop st.rxRemaining) _ (by simp [List.length_drop]; omega)
              (transition_pos _)
          · rfl
        · have hA : data.length < st.rxRemaining := not_le.mp hB
          have hn : min data.length st.rxRemaining = data.length :=
            Nat.min_eq_left (le_of_lt hA)
          have hz : ¬ st.rxRemaining - data.length = 0 := by omega
          simp only [hn, List.take_length, hz, if_false]
          conv_rhs => rw [← List.append_nil data]
          rw [handleLoop_copy data st [] hA]
          rfl

/-- `AppProtocolHandleIncoming` agrees with the byte-granular loop from every
non-halted state in which the decoder expects at least one byte. -/
theorem handle_eq_loop (st : St) (data : List Nat) (hrem : 1 ≤ st.rxRemaining)
    (hh : st.halted = false) :
    AppProtocolHandleIncoming st data = handleLoop st data := by
  unfold AppProtocolHandleIncoming
  rw [hh]
  simp only [Bool.false_eq_true, if_false]
  exact handleLoopChunk_eq (data.length + 1) data st (Nat.lt_succ_self _) hrem

end Proto

namespace Proto

/-! Composition of the receive loop across chunk boundaries. -/

theorem handleLoop_append_ok (a : List Nat) : ∀ (st : St) (b : List Nat),
    st.halted = false → (handleLoop st a).2 = true →
    handleLoop st (a ++ b) =
      if (handleLoop st a).1.halted then ((handleLoop st a).1, true)
      else handleLoop (handleLoop st a).1 b := by
  induction a with
  | nil =>
      intro st b hh _
      simp [handleLoop, hh]
  | cons x xs ih =>
      intro st b hh h
      by_cases h0 : (copy1 st x).rxRemaining = 0
      · rw [handleLoop_cons_trans st x xs h0] at h
        rw [show (x :: xs) ++ b = x :: (xs ++ b) from rfl,
          handleLoop_cons_trans st x (xs ++ b) h0,
          handleLoop_cons_trans st x xs h0]
        by_cases ht : (transition (copy1 st x)).2
        · by_cases hhal : (transition (copy1 st x)).1.halted
          · simp [ht, hhal]
          · simp [ht, hhal] at h ⊢
            exact ih _ b (by simpa using hhal) h
        · simp [ht] at h
      · rw [show (x :: xs) ++ b = x :: (xs ++ b) from rfl,
          handleLoop_cons_copy st x (xs ++ b) h0]
        rw [handleLoop_cons_copy st x xs h0] at h ⊢
        exact ih (copy1 st x) b (by simp [copy1, hh]) h

theorem handleLoop_append_fail (a : List Nat) : ∀ (st : St) (b : List Nat),
    (handleLoop st a).2 = false → handleLoop st (a ++ b) = handleLoop st a := by
  induction a with
  | nil =>
      intro st b h
      simp [handleLoop] at h
  | cons x xs ih =>
      intro st b h
      by_cases h0 : (copy1 st x).rxRemaining = 0
      · rw [handleLoop_cons_trans st x xs h0] at h
        rw [show (x :: xs) ++ b = x :: (xs ++ b) from rfl,
          handleLoop_cons_trans st x (xs ++ b) h0,
          handleLoop_cons_trans st x xs h0]
        by_cases ht : (transition (copy1 st x)).2
        · by_cases hhal : (transition (copy1 st x)).1.halted
          · simp [ht, hhal] at h
          · simp [ht, hhal] at h ⊢
            exact ih _ b h
        · simp [ht]
      · rw [show (x :: xs) ++ b = x :: (xs ++ b) from rfl,
          handleLoop_cons_copy st x (xs ++ b) h0]
        rw [handleLoop_cons_copy st x xs h0] at h ⊢
        exact ih _ b h

theorem handle_nil (st : St) : AppProtocolHandleIncoming st [] = (st, true) := by
  unfold AppProtocolHandleIncoming
  by_cases hh : st.halted <;> simp [hh, handleLoopChunk]

theorem handle_remaining (st : St) (data : List Nat) (hrem : 1 ≤ st.rxRemaining) :
    1 ≤ (AppProtocolHandleIncoming st data).1.rxRemaining := by
  by_cases hh : st.halted
  · simp [AppProtocolHandleIncoming, hh]
    exact hrem
  · rw [handle_eq_loop st data hrem (by simpa using hh)]
    exact handleLoop_remaining data st hrem

theorem handle_append_ok (st : St) (a b : List Nat) (hrem : 1 ≤ st.rxRemaining)
    (h : (AppProtocolHandleIncoming st a).2 = true) :
    AppProtocolHandleIncoming st (a ++ b) =
      AppProtocolHandleIncoming (AppProtocolHandleIncoming st a).1 b := by
  by_cases hh : st.halted
  · simp [AppProtocolHandleIncoming, hh]
  · have hh2 : st.halted = false := by simpa using hh
    rw [handle_eq_loop st a hrem hh2] at h ⊢
    rw [handle_eq_loop st (a ++ b) hrem hh2]
    rw [handleLoop_append_ok a st b hh2 h]
    by_cases hhal : (handleLoop st a).1.halted
    · simp [AppProtocolHandleIncoming, hhal]
    · rw [handle_eq_loop (handleLoop st a).1 b (handleLoop_remaining a st hrem)
        (by simpa using hhal)]
      simp [hhal]

theorem handle_append_fail (st : St) (a b : List Nat) (hrem : 1 ≤ st.rxRemaining)
    (h : (AppProtocolHandleIncoming st a).2 = false) :
    AppProtocolHandleIncoming st (a ++ b) = AppProtocolHandleIncoming st a := by
  by_cases hh : st.halted
  · simp [AppProtocolHandleIncoming, hh] at h
  · have hh2 : st.halted = false := by simpa using hh
    rw [handle_eq_loop st a hrem hh2] at h ⊢
    rw [handle_eq_loop st (a ++ b) hrem hh2]
    exact handleLoop_append_fail a st b h

theorem handle_prefix_ok (st : St) (a b : List Nat) (hrem : 1 ≤ st.rxRemaining)
    (h : (AppProtocolHandleIncoming st (a ++ b)).2 = true) :
    (AppProtocolHandleIncoming st a).2 = true := by
  by_contra hfa
  have hf : (AppProtocolHandleIncoming st a).2 = false := by
    simpa using hfa
  rw [handle_append_fail st a b hrem hf] at h
  rw [hf] at h
  simp at h

end Proto

namespace Proto

/-! What a failed dispatch leaves behind: the cursor state was already reset
to `(WAIT_TYPE, 1, 0)` before `MessageDone()` ran (protocol.c lines 296-298),
and a failing dispatch performs no hardware call and enqueues nothing. -/

theorem transitionVar_shape (st : St) (h : (transitionVar st).2 = false) :
    (transitionVar st).1.rxState = RxMessageState.WAIT_TYPE ∧
    (transitionVar st).1.rxRemaining = 1 ∧
    (transitionVar st).1.rxCursor = 0 ∧
    (transitionVar st).1.dispatched = st.dispatched ++ [st.rxBuf.take st.rxCursor] ∧
    (transitionVar st).1.events = st.events ∧
    (transitionVar st).1.txQueue = st.txQueue ∧
    (transitionVar st).1.halted = st.halted := by
  rw [transitionVar_fail st h]
  simp

theorem transitionArgs_shape (st : St) (h : (transitionArgs st).2 = false) :
    (transitionArgs st).1.rxState = RxMessageState.WAIT_TYPE ∧
    (transitionArgs st).1.rxRemaining = 1 ∧
    (transitionArgs st).1.rxCursor = 0 ∧
    (transitionArgs st).1.dispatched = st.dispatched ++ [st.rxBuf.take st.rxCursor] ∧
    (transitionArgs st).1.events = st.events ∧
    (transitionArgs st).1.txQueue = st.txQueue ∧
    (transitionArgs st).1.halted = st.halted := by
  unfold transitionArgs at h ⊢
  by_cases hz : IncomingVarArgSize st.rxBuf = 0
  · simp only [hz, if_pos rfl] at h ⊢
    simpa using transitionVar_shape _ h
  · simp [hz] at h

theorem transition_shape (st : St) (h : (transition st).2 = false) :
    (transition st).1.rxState = RxMessageState.WAIT_TYPE ∧
    (transition st).1.rxRemaining = 1 ∧
    (transition st).1.rxCursor = 0 ∧
    (transition st).1.dispatched = st.dispatched ++ [st.rxBuf.take st.rxCursor] ∧
    (transition st).1.events = st.events ∧
    (transition st).1.txQueue = st.txQueue ∧
    (transition st).1.halted = st.halted := by
  unfold transition at h ⊢
  rcases hs : st.rxState
  · simp only [hs] at h ⊢
    by_cases hz : (if byteAt st.rxBuf 0 < MESSAGE_TYPE_LIMIT then
        incoming_arg_size (byteAt st.rxBuf 0) else 0) = 0
    · simp only [hz, if_pos rfl] at h ⊢
      simpa using transitionArgs_shape _ h
    · simp [hz] at h
  · simp only [hs] at h ⊢
    exact transitionArgs_shape st h
  · simp only [hs] at h ⊢
    exact transitionVar_shape st h

theorem transition_dispatched_prefix (st : St) :
    ∃ l, (transition st).1.dispatched = st.dispatched ++ l := by
  unfold transition transitionArgs transitionVar
  rcases hs : st.rxState <;>
    rcases hmd : MessageDone st.rxBuf with _ | ⟨evs, push⟩ | evs <;>
    simp [hmd] <;>
    split_ifs <;>
    simp

theorem handleLoop_dispatched_prefix (data : List Nat) : ∀ st : St,
    ∃ l, (handleLoop st data).1.dispatched = st.dispatched ++ l := by
  induction data with
  | nil =>
      intro st
      exact ⟨[], by simp [handleLoop]⟩
  | cons x xs ih =>
      intro st
      by_cases h0 : (copy1 st x).rxRemaining = 0
      · rw [handleLoop_cons_trans st x xs h0]
        obtain ⟨l1, hl1⟩ := transition_dispatched_prefix (copy1 st x)
        have hl1' : (transition (copy1 st x)).1.dispatched = st.dispatched ++ l1 := by
          simpa [copy1] using hl1
        by_cases ht : (transition (copy1 st x)).2
        · by_cases hhal : (transition (copy1 st x)).1.halted
          · exact ⟨l1, by simpa [ht, hhal] using hl1'⟩
          · obtain ⟨l2, hl2⟩ := ih (transition (copy1 st x)).1
            refine ⟨l1 ++ l2, ?_⟩
            simp only [ht, hhal, if_true, if_false]
            simp [ht, hhal, hl2, hl1']
        · exact ⟨l1, by simpa [ht] using hl1'⟩
      · rw [handleLoop_cons_copy st x xs h0]
        obtain ⟨l2, hl2⟩ := ih (copy1 st x)
        exact ⟨l2, by simpa [copy1] using hl2⟩

theorem handleLoop_fail_shape (data : List Nat) : ∀ st : St,
    (handleLoop st data).2 = false →
    (handleLoop st data).1.rxState = RxMessageState.WAIT_TYPE ∧
    (handleLoop st data).1.rxRemaining = 1 ∧
    (handleLoop st data).1.rxCursor = 0 ∧
    st.dispatched.length < (handleLoop st data).1.dispatched.length := by
  induction data with
  | nil =>
      intro st h
      simp [handleLoop] at h
  | cons x xs ih =>
      intro st h
      by_cases h0 : (copy1 st x).rxRemaining = 0
      · rw [handleLoop_cons_trans st x xs h0] at h ⊢
        by_cases ht : (transition (copy1 st x)).2
        · by_cases hhal : (transition (copy1 st x)).1.halted
          · simp [ht, hhal] at h
          · simp only [ht, hhal, if_true, Bool.false_eq_true, if_false] at h ⊢
            have hih := ih (transition (copy1 st x)).1 (by simpa [ht, hhal] using h)
            obtain ⟨l1, hl1⟩ := transition_dispatched_prefix (copy1 st x)
            refine ⟨?_, ?_, ?_, ?_⟩
            · simpa [ht, hhal] using hih.1
            · simpa [ht, hhal] using hih.2.1
            · simpa [ht, hhal] using hih.2.2.1
            · have h2 := hih.2.2.2
              have h3 : st.dispatched.length ≤
                  (transition (copy1 st x)).1.dispatched.length := by
                rw [hl1]
                simp [copy1]
              omega
        · have htf : (transition (copy1 st x)).2 = false := by simpa using ht
          simp only [htf, Bool.false_eq_true, if_false] at h ⊢
          have hsh := transition_shape (copy1 st x) htf
          refine ⟨hsh.1, hsh.2.1, hsh.2.2.1, ?_⟩
          rw [hsh.2.2.2.1]
          simp [copy1]
      · rw [handleLoop_cons_copy st x xs h0] at h ⊢
        have hih := ih (copy1 st x) h
        refine ⟨hih.1, hih.2.1, hih.2.2.1, ?_⟩
        have := hih.2.2.2
        simpa [copy1] using this

end Proto

namespace Proto

theorem handle_fail_boundary (st : St) (data : List Nat) (hrem : 1 ≤ st.rxRemaining)
    (h : (AppProtocolHandleIncoming st data).2 = false) :
    (AppProtocolHandleIncoming st data).1.rxState = RxMessageState.WAIT_TYPE ∧
    (AppProtocolHandleIncoming st data).1.rxRemaining = 1 ∧
    (AppProtocolHandleIncoming st data).1.rxCursor = 0 ∧
    st.dispatched.length < (AppProtocolHandleIncoming st data).1.dispatched.length := by
  by_cases hh : st.halted
  · simp [AppProtocolHandleIncoming, hh] at h
  · rw [handle_eq_loop st data hrem (by simpa using hh)] at h ⊢
    exact handleLoop_fail_shape data st h

theorem feedChunks_eq (chunks : List (List Nat)) : ∀ st : St, 1 ≤ st.rxRemaining →
    (AppProtocolHandleIncoming st chunks.flatten).2 = true →
    feedChunks st chunks = (AppProtocolHandleIncoming st chunks.flatten).1 := by
  induction chunks with
  | nil =>
      intro st hrem h
      rw [show List.flatten ([] : List (List Nat)) = [] from rfl, handle_nil st]
      rfl
  | cons c cs ih =>
      intro st hrem h
      rw [show (c :: cs).flatten = c ++ cs.flatten from rfl] at h ⊢
      have hc : (AppProtocolHandleIncoming st c).2 = true :=
        handle_prefix_ok st c cs.flatten hrem h
      have hcomp := handle_append_ok st c cs.flatten hrem hc
      rw [hcomp] at h ⊢
      have hrem2 := handle_remaining st c hrem
      have hfin := ih (AppProtocolHandleIncoming st c).1 hrem2 h
      simpa [feedChunks] using hfin

/-- C1: decoding is invariant to fragmentation.  For every chunking of a byte
stream on which the single-call decode run reports success (a stream of valid
messages), feeding the chunks one call at a time from a freshly initialized
protocol state ends in exactly the state of the single call on the
concatenated stream — in particular the sequence of `MessageDone`
invocations, with the very same `rx_msg` contents, is identical. -/
theorem C1_fragmentation_invariance (chunks : List (List Nat))
    (h : (AppProtocolHandleIncoming AppProtocolInit chunks.flatten).2 = true) :
    feedChunks AppProtocolInit chunks =
      (AppProtocolHandleIncoming AppProtocolInit chunks.flatten).1 ∧
    (feedChunks AppProtocolInit chunks).dispatched =
      (AppProtocolHandleIncoming AppProtocolInit chunks.flatten).1.dispatched := by
  have heq := feedChunks_eq chunks AppProtocolInit (Nat.le_refl 1) h
  exact ⟨heq, by rw [heq]⟩

/-- Witness for C1 at a concrete stream (SOFT_RESET then SET_PIN_ANALOG_IN on
pin 2) split into the chunks [1, 11] and [2]. -/
theorem C1_fragmentation_invariance_witness :
    (AppProtocolHandleIncoming AppProtocolInit (List.flatten [[1, 11], [2]])).2 = true ∧
    (feedChunks AppProtocolInit [[1, 11], [2]] =
      (AppProtocolHandleIncoming AppProtocolInit (List.flatten [[1, 11], [2]])).1 ∧
    (feedChunks AppProtocolInit [[1, 11], [2]]).dispatched =
      (AppProtocolHandleIncoming AppProtocolInit (List.flatten [[1, 11], [2]])).1.dispatched) :=
  ⟨by decide, C1_fragmentation_invariance [[1, 11], [2]] (by decide)⟩

/-- C3 counterexample: after a call in which dispatch failed (HARD_RESET with
a wrong magic) reported FALSE, a subsequent `AppProtocolHandleIncoming` call
without re-initialization does NOT dispatch nothing: it decodes and
dispatches a SOFT_RESET message (the `MessageDone` list grows and the
`SoftReset()` hardware call occurs). -/
theorem C3_counterexample_later_chunk_dispatches :
    (AppProtocolHandleIncoming AppProtocolInit [0, 9, 9, 9, 9]).2 = false ∧
    (AppProtocolHandleIncoming
        (AppProtocolHandleIncoming AppProtocolInit [0, 9, 9, 9, 9]).1 [1]).1.dispatched =
      [[0, 9, 9, 9, 9], [1]] ∧
    (AppProtocolHandleIncoming
        (AppProtocolHandleIncoming AppProtocolInit [0, 9, 9, 9, 9]).1 [1]).1.events =
      [Event.SoftReset] := by decide

/-- C3 (amended): when dispatch of a completed message reports failure,
`AppProtocolHandleIncoming` returns FALSE immediately and processes no
further bytes of the current chunk (appending more bytes to the failing
chunk changes nothing), and it leaves the decoder cursor state reset to
`(WAIT_TYPE, 1, 0)` — a message boundary.  There is no failure latch: a
subsequent call simply resumes from that state (see the counterexample for a
later call that dispatches without re-initialization). -/
theorem C3_failure_aborts_current_chunk (st : St) (a b : List Nat)
    (hrem : 1 ≤ st.rxRemaining)
    (h : (AppProtocolHandleIncoming st a).2 = false) :
    AppProtocolHandleIncoming st (a ++ b) = AppProtocolHandleIncoming st a ∧
    (AppProtocolHandleIncoming st a).1.rxState = RxMessageState.WAIT_TYPE ∧
    (AppProtocolHandleIncoming st a).1.rxRemaining = 1 ∧
    (AppProtocolHandleIncoming st a).1.rxCursor = 0 := by
  have hb := handle_fail_boundary st a hrem h
  exact ⟨handle_append_fail st a b hrem h, hb.1, hb.2.1, hb.2.2.1⟩

/-- Witness for the amended C3 at the wrong-magic HARD_RESET chunk followed
by extra bytes. -/
theorem C3_failure_aborts_current_chunk_witness :
    AppProtocolHandleIncoming AppProtocolInit ([0, 9, 9, 9, 9] ++ [1]) =
      AppProtocolHandleIncoming AppProtocolInit [0, 9, 9, 9, 9] ∧
    (AppProtocolHandleIncoming AppProtocolInit [0, 9, 9, 9, 9]).1.rxState =
      RxMessageState.WAIT_TYPE ∧
    (AppProtocolHandleIncoming AppProtocolInit [0, 9, 9, 9, 9]).1.rxRemaining = 1 ∧
    (AppProtocolHandleIncoming AppProtocolInit [0, 9, 9, 9, 9]).1.rxCursor = 0 :=
  C3_failure_aborts_current_chunk AppProtocolInit [0, 9, 9, 9, 9] [1]
    (by decide) (by decide)

/-- C10: a call whose input ends in the middle of a message returns TRUE —
failure can only be reported when a message completes: a FALSE return
strictly grows the list of dispatched messages.  The empty chunk returns
TRUE, and after any successful call the partial decode state is positioned
so that the next call continues exactly where the stream left off. -/
theorem C10_partial_chunk_continues (st : St) (data rest : List Nat)
    (hrem : 1 ≤ st.rxRemaining) :
    (AppProtocolHandleIncoming st []).2 = true ∧
    ((AppProtocolHandleIncoming st data).2 = false →
      st.dispatched.length < (AppProtocolHandleIncoming st data).1.dispatched.length) ∧
    ((AppProtocolHandleIncoming st data).2 = true →
      AppProtocolHandleIncoming st (data ++ rest) =
        AppProtocolHandleIncoming (AppProtocolHandleIncoming st data).1 rest) := by
  refine ⟨by rw [handle_nil], ?_, ?_⟩
  · intro hf
    exact (handle_fail_boundary st data hrem hf).2.2.2
  · intro hs
    exact handle_append_ok st data rest hrem hs

/-- Witness for C10: the chunk [2] ends in the middle of a
SET_PIN_DIGITAL_OUT message; the rest [3, 1, 0] completes it. -/
theorem C10_partial_chunk_continues_witness :
    (AppProtocolHandleIncoming AppProtocolInit []).2 = true ∧
    ((AppProtocolHandleIncoming AppProtocolInit [2]).2 = false →
      AppProtocolInit.dispatched.length <
        (AppProtocolHandleIncoming AppProtocolInit [2]).1.dispatched.length) ∧
    ((AppProtocolHandleIncoming AppProtocolInit [2]).2 = true →
      AppProtocolHandleIncoming AppProtocolInit ([2] ++ [3, 1, 0]) =
        AppProtocolHandleIncoming (AppProtocolHandleIncoming AppProtocolInit [2]).1
          [3, 1, 0]) :=
  C10_partial_chunk_continues AppProtocolInit [2] [3, 1, 0] (by decide)

end Proto

namespace Proto

/-- C2: refuted on the code.  There is no range check on the type byte before
the size-table lookup: feeding the single byte 0x10 (= `MESSAGE_TYPE_LIMIT`,
outside the declared enumeration) makes the decoder index
`incoming_arg_size[rx_msg.type]` out of range (the model's `oob` flag; in C
this is an out-of-bounds array read with an unspecified result) — there is
no immediate decode failure before that lookup; the only rejection is the
later `MessageDone` default arm once the message is deemed complete. -/
theorem C2_oob_lookup_before_rejection :
    (AppProtocolHandleIncoming AppProtocolInit [16]).1.oob = true ∧
    (AppProtocolHandleIncoming AppProtocolInit [16]).2 = false ∧
    (AppProtocolHandleIncoming AppProtocolInit [16]).1.dispatched = [[16]] := by
  decide

/-- C4: refuted at size = 255.  `IncomingVarArgSize` has return type `BYTE`,
so `size + 1` is truncated mod 256: a UART_DATA header with size byte 255
yields a variable-trailer size of 0, not the claimed 256; sizes 0..254 do
yield `size + 1`. -/
theorem C4_var_size_truncated_at_255 :
    IncomingVarArgSize [12, 0, 255] = 0 ∧
    IncomingVarArgSize [12, 0, 254] = 255 ∧
    IncomingVarArgSize [12, 0, 0] = 1 ∧
    ¬ IncomingVarArgSize [12, 0, 255] = 256 := by
  decide

set_option maxHeartbeats 1600000 in
/-- C6: refuted at size = 255.  On the message [UART_DATA, uart=0, size=255]
the decoder consumes no trailer bytes (the truncated var-arg size is 0) and
treats the message as complete, yet dispatch invokes `UARTTransmit` with
`size + 1 = 256` bytes — none of which came from the wire (the model reads
the static buffer's zero bytes).  For sizes up to 254, e.g. the scenario
size = 2 with data [7, 8, 9], the transmitted bytes are exactly the received
trailer. -/
theorem C6_uart_transmit_not_from_wire_at_255 :
    (AppProtocolHandleIncoming AppProtocolInit [12, 0, 255]).2 = true ∧
    (AppProtocolHandleIncoming AppProtocolInit [12, 0, 255]).1.dispatched =
      [[12, 0, 255]] ∧
    (AppProtocolHandleIncoming AppProtocolInit [12, 0, 255]).1.events =
      [Event.UARTTransmit 0 (List.replicate 256 0)] ∧
    (AppProtocolHandleIncoming AppProtocolInit [12, 0, 2, 7, 8, 9]).1.events =
      [Event.UARTTransmit 0 [7, 8, 9]] := by
  decide

/-- Reading a whole buffer back. -/
theorem readBytes_full (buf : List Nat) (n : Nat) (h : buf.length = n) :
    readBytes buf 0 n = buf := by
  rw [readBytes_eq_take buf n (le_of_eq h.symm), ← h, List.take_length]

/-- A message that fails its `CHECK` validations (or has no handler) makes
`MessageDone` return FALSE without any hardware call or enqueue: every
`CHECK` precedes the case's hardware action and `Echo()`. -/
theorem dispatchValid_false_fail (buf : List Nat) (h : dispatchValid buf = false) :
    MessageDone buf = DispatchResult.fail := by
  by_cases h0 : byteAt buf 0 = 0
  · simp [dispatchValid, h0] at h
    simp [MessageDone, h0]
    exact h
  by_cases h1 : byteAt buf 0 = 1
  · simp [dispatchValid, h0, h1] at h
  by_cases h2 : byteAt buf 0 = 2
  · simp [dispatchValid, h2] at h
    simp [MessageDone, h2]
    omega
  by_cases h3 : byteAt buf 0 = 3
  · simp [dispatchValid, h3] at h
    simp [MessageDone, h3]
    omega
  by_cases h4 : byteAt buf 0 = 4
  · simp [dispatchValid, h4] at h
    simp [MessageDone, h4]
    intro hp
    have hq := h hp
    omega
  by_cases h5 : byteAt buf 0 = 5
  · simp [dispatchValid, h5] at h
    simp [MessageDone, h5]
    omega
  by_cases h8 : byteAt buf 0 = 8
  · simp [dispatchValid, h8] at h
    simp [MessageDone, h8]
    intro hp
    have hq := h hp
    omega
  by_cases h9 : byteAt buf 0 = 9
  · simp [dispatchValid, h9] at h
    simp [MessageDone, h9]
    omega
  by_cases h10 : byteAt buf 0 = 10
  · simp [dispatchValid, h10] at h
    simp [MessageDone, h10]
    omega
  by_cases h11 : byteAt buf 0 = 11
  · simp [dispatchValid, h11] at h
    simp [MessageDone, h11]
    omega
  by_cases h12 : byteAt buf 0 = 12
  · simp [dispatchValid, h12] at h
    simp [MessageDone, h12]
    omega
  by_cases h13 : byteAt buf 0 = 13
  · simp [dispatchValid, h13] at h
    simp [MessageDone, h13]
    intro hp
    have hq := h hp
    omega
  by_cases h14 : byteAt buf 0 = 14
  · simp [dispatchValid, h14] at h
    simp [MessageDone, h14]
    intro hp
    have hq := h hp
    omega
  by_cases h15 : byteAt buf 0 = 15
  · simp [dispatchValid, h15] at h
    simp [MessageDone, h15]
    intro hp
    have hq := h hp
    omega
  simp [MessageDone, h0, h1, h2, h3, h4, h5, h8, h9, h10, h11, h12, h13, h14, h15]

end Proto

namespace Proto

/-- C5: for every message type with an echo contract (SOFT_RESET,
SET_PIN_DIGITAL_OUT, SET_PIN_DIGITAL_IN, SET_CHANGE_NOTIFY,
SET_PIN_ANALOG_IN, UART_CONFIG, SET_PIN_UART_RX, SET_PIN_UART_TX),
dispatching a valid inbound message of that type succeeds and enqueues
exactly the received message bytes (identical type and payload) as the echo,
followed — only afterwards — by the extra outbound report when there is one
(the digital-in-status report of an enabling SET_CHANGE_NOTIFY, the
TX-status report of UART_CONFIG). -/
theorem C5_echo_identical_and_first (buf : List Nat) (t : Nat)
    (htmem : t ∈ [1, 2, 4, 5, 11, 13, 14, 15])
    (htype : byteAt buf 0 = t)
    (hlen : 1 + incoming_arg_size t ≤ buf.length)
    (hvalid : dispatchValid buf = true) :
    ∃ evs, MessageDone buf =
      DispatchResult.ok evs
        (buf.take (1 + incoming_arg_size t) ++ extraReport buf) := by
  fin_cases htmem
  · refine ⟨[Event.SoftReset], ?_⟩
    have hl : 1 ≤ buf.length := by
      simpa [incoming_arg_size, SOFT_RESET_ARGS_size] using hlen
    simp [MessageDone, htype, Echo, OutgoingMessageLength, outgoing_arg_size,
      SOFT_RESET_ARGS_size, incoming_arg_size, extraReport,
      readBytes_eq_take buf 1 hl]
  · refine ⟨[Event.SetPinDigitalOut (byteAt buf 1) (byteAt buf 2) (byteAt buf 3)], ?_⟩
    have hv : byteAt buf 1 < NUM_PINS := by
      simpa [dispatchValid, htype] using hvalid
    have hl : 4 ≤ buf.length := by
      simpa [incoming_arg_size, SET_PIN_DIGITAL_OUT_ARGS_size] using hlen
    simp [MessageDone, htype, hv, Echo, OutgoingMessageLength, outgoing_arg_size,
      SET_PIN_DIGITAL_OUT_ARGS_size, incoming_arg_size, extraReport,
      readBytes_eq_take buf 4 hl]
  · refine ⟨[Event.SetPinDigitalIn (byteAt buf 1) (byteAt buf 2)], ?_⟩
    have hv : byteAt buf 1 < NUM_PINS ∧ byteAt buf 2 < 3 := by
      simpa [dispatchValid, htype] using hvalid
    have hl : 3 ≤ buf.length := by
      simpa [incoming_arg_size, SET_PIN_DIGITAL_IN_ARGS_size] using hlen
    simp [MessageDone, htype, hv.1, hv.2, Echo, OutgoingMessageLength, outgoing_arg_size,
      SET_PIN_DIGITAL_IN_ARGS_size, incoming_arg_size, extraReport,
      readBytes_eq_take buf 3 hl]
  · refine ⟨[Event.SetChangeNotify (byteAt buf 1) (byteAt buf 2)], ?_⟩
    have hv : byteAt buf 1 < NUM_PINS := by
      simpa [dispatchValid, htype] using hvalid
    have hl : 3 ≤ buf.length := by
      simpa [incoming_arg_size, SET_CHANGE_NOTIFY_ARGS_size] using hlen
    simp [MessageDone, htype, hv, Echo, OutgoingMessageLength, outgoing_arg_size,
      SET_CHANGE_NOTIFY_ARGS_size, incoming_arg_size, extraReport,
      readBytes_eq_take buf 3 hl]
  · refine ⟨[Event.SetPinAnalogIn (byteAt buf 1)], ?_⟩
    have hv : byteAt buf 1 < NUM_PINS := by
      simpa [dispatchValid, htype] using hvalid
    have hl : 2 ≤ buf.length := by
      simpa [incoming_arg_size, SET_PIN_ANALOG_IN_ARGS_size] using hlen
    simp [MessageDone, htype, hv, Echo, OutgoingMessageLength, outgoing_arg_size,
      SET_PIN_ANALOG_IN_ARGS_size, incoming_arg_size, extraReport,
      readBytes_eq_take buf 2 hl]
  · refine ⟨[Event.UARTConfig (byteAt buf 1) (byteAt buf 2 + 256 * byteAt buf 3)
      (byteAt buf 4) (byteAt buf 5) (byteAt buf 6)], ?_⟩
    have hv : byteAt buf 1 < NUM_UARTS ∧ byteAt buf 6 < 3 := by
      simpa [dispatchValid, htype] using hvalid
    have hl : 7 ≤ buf.length := by
      simpa [incoming_arg_size, UART_CONFIG_ARGS_size] using hlen
    simp [MessageDone, htype, hv.1, hv.2, Echo, OutgoingMessageLength, outgoing_arg_size,
      UART_CONFIG_ARGS_size, incoming_arg_size, extraReport,
      readBytes_eq_take buf 7 hl]
  · refine ⟨[Event.SetPinUartRx (byteAt buf 1) (byteAt buf 2) (byteAt buf 3)], ?_⟩
    have hv : byteAt buf 1 < NUM_PINS ∧ byteAt buf 2 < NUM_UARTS := by
      simpa [dispatchValid, htype] using hvalid
    have hl : 4 ≤ buf.length := by
      simpa [incoming_arg_size, SET_PIN_UART_RX_ARGS_size] using hlen
    simp [MessageDone, htype, hv.1, hv.2, Echo, OutgoingMessageLength, outgoing_arg_size,
      SET_PIN_UART_RX_ARGS_size, incoming_arg_size, extraReport,
      readBytes_eq_take buf 4 hl]
  · refine ⟨[Event.SetPinUartTx (byteAt buf 1) (byteAt buf 2) (byteAt buf 3)], ?_⟩
    have hv : byteAt buf 1 < NUM_PINS ∧ byteAt buf 2 < NUM_UARTS := by
      simpa [dispatchValid, htype] using hvalid
    have hl : 4 ≤ buf.length := by
      simpa [incoming_arg_size, SET_PIN_UART_TX_ARGS_size] using hlen
    simp [MessageDone, htype, hv.1, hv.2, Echo, OutgoingMessageLength, outgoing_arg_size,
      SET_PIN_UART_TX_ARGS_size, incoming_arg_size, extraReport,
      readBytes_eq_take buf 4 hl]

/-- Witness for C5: the scenario message [SET_CHANGE_NOTIFY, pin=5, cn=1] —
echo [5, 5, 1] enqueued first, then the digital-in-status report for
pin 5. -/
theorem C5_echo_identical_and_first_witness :
    (5 ∈ [1, 2, 4, 5, 11, 13, 14, 15]) ∧
    byteAt [5, 5, 1] 0 = 5 ∧
    1 + incoming_arg_size 5 ≤ ([5, 5, 1] : List Nat).length ∧
    dispatchValid [5, 5, 1] = true ∧
    ∃ evs, MessageDone [5, 5, 1] =
      DispatchResult.ok evs
        (([5, 5, 1] : List Nat).take (1 + incoming_arg_size 5) ++ extraReport [5, 5, 1]) :=
  ⟨by decide, by decide, by decide, by decide,
    C5_echo_identical_and_first [5, 5, 1] 5 (by decide) (by decide) (by decide) (by decide)⟩

/-- C9: for every echoed message type, the incoming and outgoing fixed-arg
size tables agree at that type's index (in the source both slots take
`sizeof` of the same struct), so `Echo` — whose length is
`1 + outgoing_arg_size[type]` read from the start of the `rx_msg` buffer —
pushes exactly the bytes of the received message, no more and no fewer. -/
theorem C9_echo_sizes_agree (t : Nat) (htmem : t ∈ [1, 2, 4, 5, 11, 13, 14, 15]) :
    incoming_arg_size t = outgoing_arg_size t ∧
    ∀ buf : List Nat, byteAt buf 0 = t → buf.length = 1 + incoming_arg_size t →
      Echo buf = buf := by
  fin_cases htmem <;>
    exact ⟨by decide, fun buf htype hblen => by
      simp only [Echo, OutgoingMessageLength, htype]
      exact readBytes_full buf _ (by
        simpa [incoming_arg_size, outgoing_arg_size, SOFT_RESET_ARGS_size,
          SET_PIN_DIGITAL_OUT_ARGS_size, SET_PIN_DIGITAL_IN_ARGS_size,
          SET_CHANGE_NOTIFY_ARGS_size, SET_PIN_ANALOG_IN_ARGS_size,
          UART_CONFIG_ARGS_size, SET_PIN_UART_RX_ARGS_size,
          SET_PIN_UART_TX_ARGS_size] using hblen)⟩

/-- Witness for C9 at SET_CHANGE_NOTIFY: the sizes agree and echoing the
3-byte message [5, 7, 1] returns it unchanged. -/
theorem C9_echo_sizes_agree_witness :
    (5 ∈ [1, 2, 4, 5, 11, 13, 14, 15]) ∧
    incoming_arg_size 5 = outgoing_arg_size 5 ∧
    byteAt [5, 7, 1] 0 = 5 ∧
    ([5, 7, 1] : List Nat).length = 1 + incoming_arg_size 5 ∧
    Echo [5, 7, 1] = [5, 7, 1] :=
  ⟨by decide, (C9_echo_sizes_agree 5 (by decide)).1, by decide, by decide,
    (C9_echo_sizes_agree 5 (by decide)).2 [5, 7, 1] (by decide) (by decide)⟩

/-- C8: the transmit pump.  When the channel is not ready the state (in
particular the queue) is untouched.  When it is ready, the pump first
removes exactly the `bytes_transmitted` bytes of the previously issued,
now-confirmed write from the front of the queue — never more — then peeks
the new head without removing it; if non-empty it issues that span as the
single new in-flight write and records its length, otherwise nothing is
in flight.  The in-flight count never exceeds what remains stored in the
queue: the queue's own storage is the retry buffer. -/
theorem C8_transmit_pump (st : St)
    (hinv : st.bytesTransmitted ≤ st.txQueue.length) :
    AppProtocolTasks false st = st ∧
    (AppProtocolTasks true st).txQueue = st.txQueue.drop st.bytesTransmitted ∧
    st.txQueue =
      st.txQueue.take st.bytesTransmitted ++ (AppProtocolTasks true st).txQueue ∧
    ((AppProtocolTasks true st).txQueue ≠ [] →
      (AppProtocolTasks true st).writes =
        st.writes ++ [(AppProtocolTasks true st).txQueue] ∧
      (AppProtocolTasks true st).bytesTransmitted =
        (AppProtocolTasks true st).txQueue.length) ∧
    ((AppProtocolTasks true st).txQueue = [] →
      (AppProtocolTasks true st).writes = st.writes ∧
      (AppProtocolTasks true st).bytesTransmitted = 0) ∧
    (AppProtocolTasks true st).bytesTransmitted ≤
      (AppProtocolTasks true st).txQueue.length := by
  have hq : (if st.bytesTransmitted ≠ 0 then st.txQueue.drop st.bytesTransmitted
      else st.txQueue) = st.txQueue.drop st.bytesTransmitted := by
    split_ifs with hbt
    · rfl
    · rw [not_not.mp hbt]
      simp
  by_cases hq0 : 0 < (st.txQueue.drop st.bytesTransmitted).length
  · have htrue : AppProtocolTasks true st =
        { st with txQueue := st.txQueue.drop st.bytesTransmitted,
                  bytesTransmitted := (st.txQueue.drop st.bytesTransmitted).length,
                  writes := st.writes ++ [st.txQueue.drop st.bytesTransmitted] } := by
      simp only [AppProtocolTasks, hq, hq0, if_true]
    rw [htrue]
    refine ⟨rfl, rfl, (List.take_append_drop _ _).symm, fun _ => ⟨rfl, rfl⟩,
      fun hemp => ?_, le_refl _⟩
    have hemp2 : st.txQueue.drop st.bytesTransmitted = [] := hemp
    rw [hemp2] at hq0
    simp at hq0
  · have hempty : st.txQueue.drop st.bytesTransmitted = [] :=
      List.eq_nil_of_length_eq_zero (Nat.eq_zero_of_not_pos hq0)
    have htrue : AppProtocolTasks true st =
        { st with txQueue := st.txQueue.drop st.bytesTransmitted,
                  bytesTransmitted := 0 } := by
      simp only [AppProtocolTasks, hq, hq0, if_true, if_false]
    rw [htrue]
    refine ⟨rfl, rfl, (List.take_append_drop _ _).symm, fun hne => absurd hempty hne,
      fun _ => ⟨rfl, rfl⟩, by simp⟩

/-- Witness for C8: queue [1, 2, 3] with 2 bytes in flight; on a ready tick
the 2 confirmed bytes are pulled, the remaining [3] is written and becomes
the new in-flight span. -/
theorem C8_transmit_pump_witness :
    AppProtocolTasks false { AppProtocolInit with txQueue := [1, 2, 3], bytesTransmitted := 2 } =
      { AppProtocolInit with txQueue := [1, 2, 3], bytesTransmitted := 2 } ∧
    (AppProtocolTasks true { AppProtocolInit with txQueue := [1, 2, 3], bytesTransmitted := 2 }).txQueue =
      ([1, 2, 3] : List Nat).drop 2 ∧
    ([1, 2, 3] : List Nat) =
      ([1, 2, 3] : List Nat).take 2 ++
        (AppProtocolTasks true { AppProtocolInit with txQueue := [1, 2, 3], bytesTransmitted := 2 }).txQueue ∧
    ((AppProtocolTasks true { AppProtocolInit with txQueue := [1, 2, 3], bytesTransmitted := 2 }).txQueue ≠ [] →
      (AppProtocolTasks true { AppProtocolInit with txQueue := [1, 2, 3], bytesTransmitted := 2 }).writes =
        ([] : List (List Nat)) ++
          [(AppProtocolTasks true { AppProtocolInit with txQueue := [1, 2, 3], bytesTransmitted := 2 }).txQueue] ∧
      (AppProtocolTasks true { AppProtocolInit with txQueue := [1, 2, 3], bytesTransmitted := 2 }).bytesTransmitted =
        (AppProtocolTasks true { AppProtocolInit with txQueue := [1, 2, 3], bytesTransmitted := 2 }).txQueue.length) ∧
    ((AppProtocolTasks true { AppProtocolInit with txQueue := [1, 2, 3], bytesTransmitted := 2 }).txQueue = [] →
      (AppProtocolTasks true { AppProtocolInit with txQueue := [1, 2, 3], bytesTransmitted := 2 }).writes =
        ([] : List (List Nat)) ∧
      (AppProtocolTasks true { AppProtocolInit with txQueue := [1, 2, 3], bytesTransmitted := 2 }).bytesTransmitted = 0) ∧
    (AppProtocolTasks true { AppProtocolInit with txQueue := [1, 2, 3], bytesTransmitted := 2 }).bytesTransmitted ≤
      (AppProtocolTasks true { AppProtocolInit with txQueue := [1, 2, 3], bytesTransmitted := 2 }).txQueue.length :=
  C8_transmit_pump { AppProtocolInit with txQueue := [1, 2, 3], bytesTransmitted := 2 }
    (by decide)

end Proto

namespace Proto

/-- Reading a 4-byte field (the HARD_RESET magic). -/
theorem readBytes_four (buf : List Nat) (i : Nat) :
    readBytes buf i 4 =
      [byteAt buf (i + 0), byteAt buf (i + 1), byteAt buf (i + 2), byteAt buf (i + 3)] :=
  rfl

/-- C7: a HARD_RESET message whose 4-byte magic differs from the protocol
magic is rejected by `MessageDone`'s `CHECK` before `HardReset()` is called:
feeding the complete 5-byte message from any message-boundary state performs
no hardware call, enqueues nothing on `tx_queue`, and makes
`AppProtocolHandleIncoming` report failure.  More generally, every per-type
validation failure makes `MessageDone` fail without any hardware call or
echo (the `CHECK`s precede all effects in every case). -/
theorem C7_wrong_magic_rejected (st : St) (m : List Nat)
    (hstate : st.rxState = RxMessageState.WAIT_TYPE)
    (hrem : st.rxRemaining = 1) (hcur : st.rxCursor = 0)
    (hh : st.halted = false)
    (hlen : m.length = 4) (hbytes : ∀ x ∈ m, x < 256)
    (hm : m ≠ IOIO_MAGIC_BYTES) :
    (AppProtocolHandleIncoming st (0 :: m)).2 = false ∧
    (AppProtocolHandleIncoming st (0 :: m)).1.events = st.events ∧
    (AppProtocolHandleIncoming st (0 :: m)).1.txQueue = st.txQueue ∧
    (∀ buf, dispatchValid buf = false → MessageDone buf = DispatchResult.fail) := by
  rcases m with _ | ⟨a, _ | ⟨b, _ | ⟨c, _ | ⟨d, _ | ⟨e, m⟩⟩⟩⟩⟩ <;> simp at hlen
  have ha : a % 256 = a := Nat.mod_eq_of_lt (hbytes a (by simp))
  have hb : b % 256 = b := Nat.mod_eq_of_lt (hbytes b (by simp))
  have hc : c % 256 = c := Nat.mod_eq_of_lt (hbytes c (by simp))
  have hd : d % 256 = d := Nat.mod_eq_of_lt (hbytes d (by simp))
  have hrem1 : 1 ≤ st.rxRemaining := by omega
  rw [handle_eq_loop st (0 :: a :: b :: c :: d :: []) hrem1 hh]
  refine ⟨?_, ?_, ?_, fun buf hbv => dispatchValid_false_fail buf hbv⟩ <;>
    simp [handleLoop, copy1, transition, transitionArgs, transitionVar, MessageDone,
      IncomingVarArgSize, incoming_arg_size, HARD_RESET_ARGS_size, MESSAGE_TYPE_LIMIT,
      hstate, hrem, hcur, hh, hm, byteAt_writeByte_self, byteAt_writeByte_lt,
      readBytes_four, ha, hb, hc, hd]

/-- Witness for C7 at the initial state with the wrong magic [9, 9, 9, 9]. -/
theorem C7_wrong_magic_rejected_witness :
    (AppProtocolHandleIncoming AppProtocolInit (0 :: [9, 9, 9, 9])).2 = false ∧
    (AppProtocolHandleIncoming AppProtocolInit (0 :: [9, 9, 9, 9])).1.events =
      AppProtocolInit.events ∧
    (AppProtocolHandleIncoming AppProtocolInit (0 :: [9, 9, 9, 9])).1.txQueue =
      AppProtocolInit.txQueue ∧
    (∀ buf, dispatchValid buf = false → MessageDone buf = DispatchResult.fail) :=
  C7_wrong_magic_rejected AppProtocolInit [9, 9, 9, 9] rfl rfl rfl rfl
    (by decide) (by decide) (by decide)

end Proto
